import Mathlib

/-!
Verification of the PostgreSQL schema-migration engine and its round-trip
schema verifier (package `migrations`, driver `cmd/schema-test`).

The Go source is shallowly embedded as pure Lean functions:

* the `migration` ledger table is a list of rows `(index, name)`; the SQL
  read `SELECT "index", name FROM migration ORDER BY "index" ASC` is the
  function `sortLedger`;
* a database is `DB σ`: whether the ledger table exists, its rows, and the
  rest of the schema as an abstract value of type `σ`;
* a `Migration` is either a static list of SQL statements (run through an
  abstract statement interpreter `exec`) or a custom callback on `σ`;
* each apply-one / rollback-one transaction is a pure function from the
  database state to either an error (the transaction is rolled back, the
  caller keeps the unchanged state) or the committed successor state.

Machine integers: the ledger `index` column is a Go `int` and may be
negative, so it is embedded as `Int`; positions in the declared migration
list are `Nat`.
-/

set_option linter.unusedVariables false

namespace Migrations

/-- A row of the `migration` ledger table: the recorded index and name.
The surrogate `id` and the `applied_at` timestamp play no role in the
engine's control flow and are omitted. -/
structure Row where
  index : Int
  name : String
deriving DecidableEq

/-- The two shapes of migration in the source: `StaticMigration` (a list of
SQL strings, executed in order, first failure aborts) and
`CustomMigration` (a user callback on the transaction). Both are
polymorphic over the abstract schema type `σ`. -/
inductive Migration (σ : Type) where
  | Static (sqls : List String)
  | Custom (f : σ → Except String σ)

/-- Short alias so that the `Migration` field of `NamedMigration` can be
declared with its source name without shadowing the type. -/
abbrev Mig (σ : Type) := Migration σ

/-- `DoMigration`: a `StaticMigration` executes each SQL statement in order
via the abstract interpreter `exec`, aborting on the first failure; a
`CustomMigration` invokes its callback. -/
def Migration.DoMigration (exec : String → σ → Except String σ) :
    Migration σ → σ → Except String σ
  | .Static sqls, s => sqls.foldlM (fun st q => exec q st) s
  | .Custom f, s => f s

/-- `NamedMigration` from the source: a name, a forward `Migration`, and an
optional `Reverse` migration (a `nil` interface value in Go is `none`). -/
structure NamedMigration (σ : Type) where
  Name : String
  Migration : Mig σ
  Reverse : Option (Mig σ) := none

/-- The database state visible to the engine: whether the `migration` table
exists under the current schema, its rows (in insertion order), and the
rest of the schema abstracted as a value of `σ`. -/
structure DB (σ : Type) where
  tableExists : Bool
  ledger : List Row
  schema : σ
deriving DecidableEq

/-- The four verifier disagreement errors of `verifyMigrations`, in the
source's message order: negative-or-duplicate index, unknown migration in
the ledger, skipped migration, and name mismatch. -/
inductive VerifyError where
  | DuplicateOrNegativeIndex (idx : Int)
  | UnknownMigrationInLedger (idx : Int) (name : String)
  | MigrationSkipped (idx : Nat) (name : String)
  | NameMismatch (idx : Nat) (declared stored : String)
deriving DecidableEq

/-- Guarded list access `migrations[i]`; the Go code only indexes after
bounds checks, so the default is never reached on those paths. -/
def migAt (list : List (NamedMigration σ)) (i : Nat) : NamedMigration σ :=
  (list[i]?).getD ⟨"", .Static [], none⟩

/-- The declared name at position `i` of the migration list. -/
def nameAt (list : List (NamedMigration σ)) (i : Nat) : String :=
  (migAt list i).Name

/-- The per-row case analysis of `verifyMigrations`, in source order:
index below the running counter, index at or past the end of the declared
list, index above the counter, then name comparison. `none` means the row
matches and the counter advances. -/
def rowError (list : List (NamedMigration σ)) (expected : Nat) (r : Row) :
    Option VerifyError :=
  if r.index < (expected : Int) then
    some (.DuplicateOrNegativeIndex r.index)
  else if (list.length : Int) ≤ r.index then
    some (.UnknownMigrationInLedger r.index r.name)
  else if (expected : Int) < r.index then
    some (.MigrationSkipped expected (nameAt list expected))
  else if r.name ≠ nameAt list expected then
    some (.NameMismatch expected (nameAt list expected) r.name)
  else
    none

/-- The row-scanning loop of `verifyMigrations`: walk the rows with the
counter `firstUnappliedMigrationIndex`, failing on the first disagreeing
row. -/
def verifyLoop (list : List (NamedMigration σ)) :
    Nat → List Row → Except VerifyError Nat
  | expected, [] => .ok expected
  | expected, r :: rs =>
    match rowError list expected r with
    | some e => .error e
    | none => verifyLoop list (expected + 1) rs

/-- `verifyMigrations`: scan the ledger rows (already ordered by index
ascending) against the declared list and return the first unapplied
index, or the first disagreement error. -/
def verifyMigrations (list : List (NamedMigration σ)) (rows : List Row) :
    Except VerifyError Nat :=
  verifyLoop list 0 rows

/-- The canonical ledger content after exactly the first `k` declared
migrations have been applied: rows `(0, list[0].Name) … (k-1, list[k-1].Name)`. -/
def ledgerRows (list : List (NamedMigration σ)) (k : Nat) : List Row :=
  (List.range k).map (fun (i : Nat) => ⟨(i : Int), nameAt list i⟩)

/-- Row comparison used by the ledger read `ORDER BY "index" ASC`. -/
def rowLE (a b : Row) : Prop := a.index ≤ b.index

instance : DecidableRel rowLE := fun a b =>
  inferInstanceAs (Decidable (a.index ≤ b.index))

instance : IsTotal Row rowLE := ⟨fun a b => Int.le_total a.index b.index⟩

instance : IsTrans Row rowLE := ⟨fun _ _ _ h1 h2 => le_trans h1 h2⟩

/-- Strict row comparison, used to show sorted ledgers with distinct
indices are unique up to permutation. -/
def rowLT (a b : Row) : Prop := a.index < b.index

instance : IsAntisymm Row rowLT := ⟨fun _ _ h1 h2 => absurd h2 (lt_asymm h1)⟩

/-- The ledger as the engine reads it: rows sorted by the `index` column
ascending (`SELECT "index", name FROM migration ORDER BY "index" ASC`). -/
def sortLedger (l : List Row) : List Row := l.insertionSort rowLE

theorem sortLedger_perm (l : List Row) : List.Perm (sortLedger l) l :=
  List.perm_insertionSort rowLE l

theorem sortLedger_length (l : List Row) : (sortLedger l).length = l.length :=
  (sortLedger_perm l).length_eq

theorem sortLedger_sorted (l : List Row) : List.Sorted rowLE (sortLedger l) :=
  List.sorted_insertionSort rowLE l

theorem ledgerRows_length (list : List (NamedMigration σ)) (k : Nat) :
    (ledgerRows list k).length = k := by
  simp [ledgerRows]

theorem ledgerRows_succ (list : List (NamedMigration σ)) (k : Nat) :
    ledgerRows list (k + 1) = ledgerRows list k ++ [⟨(k : Int), nameAt list k⟩] := by
  simp [ledgerRows, List.range_succ]

theorem ledgerRows_map_index (list : List (NamedMigration σ)) (k : Nat) :
    (ledgerRows list k).map Row.index = (List.range k).map (fun (i : Nat) => (i : Int)) := by
  unfold ledgerRows
  rw [List.map_map]
  rfl

theorem ledgerRows_sorted_lt (list : List (NamedMigration σ)) (k : Nat) :
    List.Sorted rowLT (ledgerRows list k) := by
  unfold ledgerRows
  refine List.pairwise_map.2 ?_
  refine (List.pairwise_lt_range k).imp ?_
  intro a b h
  simpa [rowLT] using h

theorem ledgerRows_index_nodup (list : List (NamedMigration σ)) (k : Nat) :
    ((ledgerRows list k).map Row.index).Nodup := by
  rw [ledgerRows_map_index]
  exact (List.nodup_range k).map (fun a b h => by exact_mod_cast h)

/-- A sorted row list that is a permutation of a canonical ledger equals
it: the canonical ledger has strictly increasing indices, so the sorted
form is unique. -/
theorem sorted_perm_ledgerRows_eq {list : List (NamedMigration σ)} {l : List Row}
    {k : Nat} (hp : List.Perm l (ledgerRows list k)) (hs : List.Sorted rowLE l) :
    l = ledgerRows list k := by
  have hnd : (l.map Row.index).Nodup :=
    ((hp.map Row.index).nodup_iff).2 (ledgerRows_index_nodup list k)
  have hpw : l.Pairwise (fun a b => Row.index a ≠ Row.index b) :=
    List.pairwise_map.1 hnd
  have hslt : List.Sorted rowLT l :=
    (List.Pairwise.and hs hpw).imp (fun h => lt_of_le_of_ne h.1 h.2)
  exact List.eq_of_perm_of_sorted hp hslt (ledgerRows_sorted_lt list k)

/-- `goodFrom list j rows` states that the verifier walk starting with
counter `j` accepts every row of `rows`. -/
def goodFrom (list : List (NamedMigration σ)) : Nat → List Row → Prop
  | _, [] => True
  | j, r :: rs => rowError list j r = none ∧ goodFrom list (j + 1) rs

/-- The segment of canonical ledger rows for indices `j, j+1, …, j+n-1`. -/
def segRows (list : List (NamedMigration σ)) (j n : Nat) : List Row :=
  (List.range' j n).map (fun (i : Nat) => ⟨(i : Int), nameAt list i⟩)

theorem segRows_zero (list : List (NamedMigration σ)) (n : Nat) :
    segRows list 0 n = ledgerRows list n := by
  simp [segRows, ledgerRows, List.range_eq_range']

theorem segRows_length (list : List (NamedMigration σ)) (j n : Nat) :
    (segRows list j n).length = n := by
  simp [segRows]

theorem rowError_eq_none_iff (list : List (NamedMigration σ)) (j : Nat) (r : Row) :
    rowError list j r = none ↔
      (r.index = (j : Int) ∧ r.name = nameAt list j ∧ j < list.length) := by
  unfold rowError
  split_ifs with h1 h2 h3 h4
  · exact iff_of_false (by simp) (by rintro ⟨hi, hn, hl⟩; omega)
  · exact iff_of_false (by simp) (by rintro ⟨hi, hn, hl⟩; omega)
  · exact iff_of_false (by simp) (by rintro ⟨hi, hn, hl⟩; omega)
  · exact iff_of_false (by simp) (by rintro ⟨hi, hn, hl⟩; exact h4 hn)
  · exact iff_of_true rfl ⟨by omega, not_not.1 h4, by omega⟩

theorem verifyLoop_ok_iff (list : List (NamedMigration σ)) :
    ∀ (rows : List Row) (j k : Nat),
      verifyLoop list j rows = .ok k ↔ (k = j + rows.length ∧ goodFrom list j rows) := by
  intro rows
  induction rows with
  | nil =>
    intro j k
    simp only [verifyLoop, goodFrom, List.length_nil, Nat.add_zero, and_true]
    exact ⟨fun h => by cases h; rfl, fun h => by cases h; rfl⟩
  | cons r rs ih =>
    intro j k
    simp only [verifyLoop, goodFrom]
    cases hre : rowError list j r with
    | some e => simp [hre]
    | none =>
      rw [ih (j + 1) k]
      constructor
      · rintro ⟨h1, h2⟩
        exact ⟨by simpa [Nat.add_assoc, Nat.add_comm 1 rs.length] using h1, rfl, h2⟩
      · rintro ⟨h1, _, h2⟩
        refine ⟨?_, h2⟩
        simp only [List.length_cons] at h1 ⊢
        omega

theorem verifyLoop_error_iff (list : List (NamedMigration σ)) :
    ∀ (rows : List Row) (j : Nat) (e : VerifyError),
      verifyLoop list j rows = .error e ↔
        ∃ a r b, rows = a ++ r :: b ∧ goodFrom list j a ∧
          rowError list (j + a.length) r = some e := by
  intro rows
  induction rows with
  | nil =>
    intro j e
    constructor
    · intro h
      simp [verifyLoop] at h
    · rintro ⟨a, r, b, h, -, -⟩
      exact absurd h (by simp)
  | cons r rs ih =>
    intro j e
    simp only [verifyLoop]
    cases hre : rowError list j r with
    | some e0 =>
      constructor
      · intro h
        cases h
        exact ⟨[], r, rs, rfl, trivial, by simpa using hre⟩
      · rintro ⟨a, r1, b, heq, hgood, herr⟩
        cases a with
        | nil =>
          cases heq
          simp only [List.length_nil, Nat.add_zero] at herr
          rw [hre] at herr
          cases herr
          rfl
        | cons r0 a1 =>
          rw [List.cons_append] at heq
          cases heq
          exact absurd hgood.1 (by simp [hre])
    | none =>
      rw [ih (j + 1) e]
      constructor
      · rintro ⟨a, r1, b, heq, hgood, herr⟩
        refine ⟨r :: a, r1, b, by rw [heq, List.cons_append], ⟨hre, hgood⟩, ?_⟩
        simpa [Nat.add_assoc, Nat.add_comm 1 a.length] using herr
      · rintro ⟨a, r1, b, heq, hgood, herr⟩
        cases a with
        | nil =>
          cases heq
          simp only [List.length_nil, Nat.add_zero] at herr
          rw [hre] at herr
          cases herr
        | cons r0 a1 =>
          rw [List.cons_append] at heq
          cases heq
          refine ⟨a1, r1, b, rfl, hgood.2, ?_⟩
          simpa [Nat.add_assoc, Nat.add_comm 1 a1.length] using herr

theorem goodFrom_seg (list : List (NamedMigration σ)) :
    ∀ (rows : List Row) (j : Nat), goodFrom list j rows →
      rows = segRows list j rows.length ∧ (rows = [] ∨ j + rows.length ≤ list.length) := by
  intro rows
  induction rows with
  | nil =>
    intro j _
    exact ⟨by simp [segRows], Or.inl rfl⟩
  | cons r rs ih =>
    intro j hg
    obtain ⟨h1, h2⟩ := hg
    obtain ⟨hi, hn, hl⟩ := (rowError_eq_none_iff list j r).1 h1
    obtain ⟨hseg, hbound⟩ := ih (j + 1) h2
    constructor
    · simp only [List.length_cons, segRows, List.range'_succ, List.map_cons]
      refine List.cons_eq_cons.2 ⟨?_, ?_⟩
      · cases r
        simp only [Row.mk.injEq]
        exact ⟨hi, hn⟩
      · simpa [segRows] using hseg
    · right
      rcases hbound with hb | hb
      · subst hb
        simpa using hl
      · simpa [Nat.add_assoc, Nat.add_comm 1 rs.length] using hb

theorem seg_goodFrom (list : List (NamedMigration σ)) :
    ∀ (n j : Nat), (n = 0 ∨ j + n ≤ list.length) → goodFrom list j (segRows list j n) := by
  intro n
  induction n with
  | zero =>
    intro j _
    simp [segRows, goodFrom]
  | succ m ih =>
    intro j hb
    have hjl : j < list.length := by omega
    simp only [segRows, List.range'_succ, List.map_cons]
    refine ⟨(rowError_eq_none_iff list j _).2 ⟨rfl, rfl, hjl⟩, ?_⟩
    have := ih (j + 1) (by omega)
    simpa [segRows] using this

theorem goodFrom_zero_iff (list : List (NamedMigration σ)) (rows : List Row) :
    goodFrom list 0 rows ↔
      (rows = ledgerRows list rows.length ∧ rows.length ≤ list.length) := by
  constructor
  · intro hg
    obtain ⟨hseg, hbound⟩ := goodFrom_seg list rows 0 hg
    rw [segRows_zero] at hseg
    refine ⟨hseg, ?_⟩
    rcases hbound with hb | hb
    · simp [hb]
    · omega
  · rintro ⟨hseg, hbound⟩
    have := seg_goodFrom list rows.length 0 (Or.inr (by omega))
    rw [segRows_zero] at this
    rw [hseg] at this ⊢
    simpa [ledgerRows_length] using this

/-- Claim C1: for every declared migration list and every sequence of
ledger rows read in ascending index order, `verifyMigrations` either
returns a first-unapplied index in `[0, len(list)]` equal to the length of
the contiguous declared-list prefix that the ledger exactly matches, or
fails with exactly one of the four disagreement errors (the codomain of
`rowError`); the failing error is decided for the first non-matching row
by the source's case order — index below the running counter, index at or
past the end of the list, index above the counter, then name mismatch —
as embodied in `rowError`. -/
theorem claim1_verifier_totality_and_exactness (σ : Type)
    (list : List (NamedMigration σ)) (rows : List Row) :
    (∀ k, verifyMigrations list rows = .ok k ↔
      (k ≤ list.length ∧ rows = ledgerRows list k))
    ∧ (∀ e, verifyMigrations list rows = .error e ↔
      ∃ a r b, rows = a ++ r :: b ∧ a = ledgerRows list a.length ∧
        a.length ≤ list.length ∧ rowError list a.length r = some e) := by
  constructor
  · intro k
    rw [verifyMigrations, verifyLoop_ok_iff list rows 0 k]
    constructor
    · rintro ⟨hk, hg⟩
      obtain ⟨hseg, hb⟩ := (goodFrom_zero_iff list rows).1 hg
      subst hk
      simpa using ⟨hb, hseg⟩
    · rintro ⟨hk, hseg⟩
      have hlen : rows.length = k := by rw [hseg]; exact ledgerRows_length list k
      refine ⟨by omega, (goodFrom_zero_iff list rows).2 ⟨?_, by omega⟩⟩
      rw [hlen]
      exact hseg
  · intro e
    rw [verifyMigrations, verifyLoop_error_iff list rows 0 e]
    constructor
    · rintro ⟨a, r, b, heq, hg, herr⟩
      obtain ⟨hseg, hb⟩ := (goodFrom_zero_iff list a).1 hg
      exact ⟨a, r, b, heq, hseg, hb, by simpa using herr⟩
    · rintro ⟨a, r, b, heq, hseg, hb, herr⟩
      exact ⟨a, r, b, heq, (goodFrom_zero_iff list a).2 ⟨hseg, hb⟩, by simpa using herr⟩

/-- The errors surfaced by the migrator and the rollback path, mirroring
the `fmt.Errorf` sites of the source. `Verify` wraps the four verifier
disagreements; `LedgerUnreachable` models a failing `LOCK TABLE migration`
(the table does not exist); `RecordFailed` models the `INSERT` violating
the `UNIQUE ("index")` constraint. -/
inductive MigErr where
  | Verify (e : VerifyError)
  | LedgerUnreachable
  | MigrationFailed (idx : Nat) (name : String) (cause : String)
  | RecordFailed (idx : Nat) (name : String)
  | InvalidTarget (idx : Int)
  | NotYetApplied (idx : Int)
  | NoReverse (idx : Nat) (name : String)
  | RollbackFailed (idx : Nat) (name : String) (cause : String)
deriving DecidableEq

/-- The successful outcome of one `migrateOne` transaction: the `migrated`
return value, the internal `committed` flag at function exit (when it is
`false` the deferred `tx.Rollback()` ran), and the database state the
caller observes afterwards. -/
structure MigOk (σ : Type) where
  migrated : Bool
  committed : Bool
  db : DB σ
deriving DecidableEq

/-- `migrateOne`: one apply-one transaction. Begin, lock the `migration`
table, verify, return done when nothing is unapplied (without committing),
otherwise apply the first unapplied migration, record it, and commit. An
error rolls the transaction back, so the caller keeps the unchanged
state. -/
def migrateOne (exec : String → σ → Except String σ) (list : List (NamedMigration σ))
    (db : DB σ) : Except MigErr (MigOk σ) :=
  if db.tableExists = false then .error .LedgerUnreachable
  else
    match verifyMigrations list (sortLedger db.ledger) with
    | .error e => .error (.Verify e)
    | .ok fu =>
      if list.length ≤ fu then .ok ⟨false, false, db⟩
      else
        let m := migAt list fu
        match m.Migration.DoMigration exec db.schema with
        | .error c => .error (.MigrationFailed fu m.Name c)
        | .ok s1 =>
          if db.ledger.any (fun r => r.index == (fu : Int)) = true then
            .error (.RecordFailed fu m.Name)
          else
            .ok ⟨true, true, ⟨true, db.ledger ++ [⟨(fu : Int), m.Name⟩], s1⟩⟩

theorem verify_ok_shape (list : List (NamedMigration σ)) (rows : List Row) (fu : Nat)
    (h : verifyMigrations list rows = .ok fu) :
    rows = ledgerRows list fu ∧ fu ≤ list.length := by
  rw [verifyMigrations, verifyLoop_ok_iff] at h
  obtain ⟨hk, hg⟩ := h
  obtain ⟨hseg, hb⟩ := (goodFrom_zero_iff list rows).1 hg
  have : fu = rows.length := by omega
  subst this
  exact ⟨hseg, hb⟩

theorem verify_ok_of_shape (list : List (NamedMigration σ)) (fu : Nat)
    (h : fu ≤ list.length) :
    verifyMigrations list (ledgerRows list fu) = .ok fu := by
  rw [verifyMigrations, verifyLoop_ok_iff]
  refine ⟨by simp [ledgerRows_length], ?_⟩
  refine (goodFrom_zero_iff list _).2 ⟨?_, ?_⟩ <;> simp [ledgerRows_length, h]

/-- The state invariant maintained by the engine: the ledger table exists
and its rows, read in index order, are exactly the canonical rows for the
first `ledger.length` declared migrations. -/
def GoodLedger (list : List (NamedMigration σ)) (db : DB σ) : Prop :=
  db.tableExists = true ∧ db.ledger.length ≤ list.length ∧
    sortLedger db.ledger = ledgerRows list db.ledger.length

instance (list : List (NamedMigration σ)) (db : DB σ) :
    Decidable (GoodLedger list db) := by
  unfold GoodLedger
  infer_instance

theorem GoodLedger.verify {list : List (NamedMigration σ)} {db : DB σ}
    (hg : GoodLedger list db) :
    verifyMigrations list (sortLedger db.ledger) = .ok db.ledger.length := by
  rw [hg.2.2]
  exact verify_ok_of_shape list _ hg.2.1

theorem verify_count {list : List (NamedMigration σ)} {db : DB σ} {fu : Nat}
    (h : verifyMigrations list (sortLedger db.ledger) = .ok fu) :
    db.ledger.length = fu ∧ fu ≤ list.length ∧ GoodLedger list db ∨ db.tableExists = false := by
  obtain ⟨hshape, hle⟩ := verify_ok_shape _ _ _ h
  have hlen : db.ledger.length = fu := by
    have := congrArg List.length hshape
    rwa [sortLedger_length, ledgerRows_length] at this
  cases ht : db.tableExists with
  | false => exact Or.inr rfl
  | true => exact Or.inl ⟨hlen, hle, ht, by omega, by rw [hlen]; exact hshape⟩

/-- Unconditional growth fact used for termination of the `Migrate` loop:
a committed apply-one step lengthens the ledger by one and only happens
strictly below the end of the declared list. -/
theorem migrateOne_growth (exec : String → σ → Except String σ)
    (list : List (NamedMigration σ)) (db : DB σ) (r : MigOk σ)
    (h : migrateOne exec list db = .ok r) (hm : r.migrated = true) :
    db.ledger.length < list.length ∧ r.db.ledger.length = db.ledger.length + 1 := by
  unfold migrateOne at h
  split at h
  · cases h
  · split at h
    · cases h
    · rename_i fu hv
      have hlen : db.ledger.length = fu := by
        obtain ⟨hshape, -⟩ := verify_ok_shape _ _ _ hv
        have hl2 := congrArg List.length hshape
        rwa [sortLedger_length, ledgerRows_length] at hl2
      split at h
      · cases h
        simp at hm
      · rename_i hfu
        simp only [] at h
        split at h
        · cases h
        · split at h
          · cases h
          · cases h
            refine ⟨by omega, by simp⟩

/-- The `Migrate` loop body: repeat `migrateOne` until it reports no step
was performed, surfacing the first error with the state at that point. -/
def migrateLoop (exec : String → σ → Except String σ) (list : List (NamedMigration σ))
    (db : DB σ) : Option MigErr × DB σ :=
  match h : migrateOne exec list db with
  | .error e => (some e, db)
  | .ok r =>
    if hm : r.migrated = true then
      migrateLoop exec list r.db
    else
      (none, r.db)
termination_by list.length + 1 - db.ledger.length
decreasing_by
  have := migrateOne_growth exec list db r h hm
  omega

/-- `ensureMigrationsTableExists`: look in `information_schema` for a table
named `migration` under the current schema and create it when absent; a
freshly created ledger table has no rows. -/
def ensureMigrationsTableExists (db : DB σ) : DB σ :=
  if db.tableExists = true then db else ⟨true, [], db.schema⟩

/-- `Migrate`: ensure the ledger table exists, then drive `migrateOne`
until it reports done or an error. Returns the error (Go: the non-nil
return) together with the database state the caller is left with. -/
def Migrate (exec : String → σ → Except String σ) (list : List (NamedMigration σ))
    (db : DB σ) : Option MigErr × DB σ :=
  migrateLoop exec list (ensureMigrationsTableExists db)

theorem GoodLedger.index_lt {list : List (NamedMigration σ)} {db : DB σ}
    (hg : GoodLedger list db) {r : Row} (hr : r ∈ db.ledger) :
    0 ≤ r.index ∧ r.index < (db.ledger.length : Int) := by
  have hmem : r ∈ sortLedger db.ledger := (sortLedger_perm db.ledger).mem_iff.2 hr
  rw [hg.2.2] at hmem
  simp only [ledgerRows, List.mem_map, List.mem_range] at hmem
  obtain ⟨i, hi, hrow⟩ := hmem
  rw [← hrow]
  dsimp only
  refine ⟨Int.natCast_nonneg i, ?_⟩
  exact_mod_cast hi

theorem sortLedger_snoc {list : List (NamedMigration σ)} {l : List Row} {k : Nat}
    (hs : sortLedger l = ledgerRows list k) :
    sortLedger (l ++ [⟨(k : Int), nameAt list k⟩]) = ledgerRows list (k + 1) := by
  refine sorted_perm_ledgerRows_eq ?_ (sortLedger_sorted _)
  have h2 : List.Perm l (ledgerRows list k) := by
    rw [← hs]
    exact (sortLedger_perm l).symm
  have h3 := h2.append_right [(⟨(k : Int), nameAt list k⟩ : Row)]
  rw [← ledgerRows_succ list k] at h3
  exact (sortLedger_perm _).trans h3

theorem GoodLedger.no_dup_insert {list : List (NamedMigration σ)} {db : DB σ}
    (hg : GoodLedger list db) :
    db.ledger.any (fun r => r.index == ((db.ledger.length : Nat) : Int)) = false := by
  rw [List.any_eq_false]
  intro r hr
  have := hg.index_lt hr
  simp only [beq_iff_eq]
  omega

/-- Under the ledger invariant, when every declared migration is already
applied, `migrateOne` returns `migrated = false` with the internal
`committed` flag still `false` (so the deferred `tx.Rollback()` ran) and
the state unchanged. -/
theorem migrateOne_done {list : List (NamedMigration σ)} {db : DB σ}
    (exec : String → σ → Except String σ) (hg : GoodLedger list db)
    (hful : db.ledger.length = list.length) :
    migrateOne exec list db = .ok ⟨false, false, db⟩ := by
  unfold migrateOne
  rw [if_neg (by simp [hg.1]), hg.verify]
  dsimp only
  rw [if_pos (by omega)]

/-- Under the ledger invariant with an unapplied tail, `migrateOne`
applies exactly the first unapplied migration: on forward failure it
surfaces `MigrationFailed` (the transaction is rolled back), on success it
appends exactly the row `(first_unapplied, name)` and commits. -/
theorem migrateOne_step {list : List (NamedMigration σ)} {db : DB σ}
    (exec : String → σ → Except String σ) (hg : GoodLedger list db)
    (hlt : db.ledger.length < list.length) :
    migrateOne exec list db =
      match (migAt list db.ledger.length).Migration.DoMigration exec db.schema with
      | .error c =>
        .error (.MigrationFailed db.ledger.length (migAt list db.ledger.length).Name c)
      | .ok s1 =>
        .ok ⟨true, true,
          ⟨true,
            db.ledger ++ [⟨(db.ledger.length : Int), (migAt list db.ledger.length).Name⟩],
            s1⟩⟩ := by
  unfold migrateOne
  rw [if_neg (by simp [hg.1]), hg.verify]
  dsimp only
  rw [if_neg (by omega)]
  cases hdo : (migAt list db.ledger.length).Migration.DoMigration exec db.schema with
  | error c => simp only [hdo]
  | ok s1 => simp only [hdo, hg.no_dup_insert, Bool.false_eq_true, if_false]

/-- One successful `migrateOne` transaction preserves the ledger
invariant; a committed step appends exactly the canonical next row, a
`migrated = false` return means every declared migration was applied and
the state is unchanged; the `committed` flag equals `migrated`. -/
theorem migrateOne_preserves {list : List (NamedMigration σ)} {db : DB σ} {r : MigOk σ}
    (exec : String → σ → Except String σ) (hg : GoodLedger list db)
    (h : migrateOne exec list db = .ok r) :
    GoodLedger list r.db ∧ r.committed = r.migrated
      ∧ (r.migrated = true →
          r.db.ledger = db.ledger ++ [⟨(db.ledger.length : Int), nameAt list db.ledger.length⟩]
            ∧ db.ledger.length < list.length)
      ∧ (r.migrated = false → r.db = db ∧ db.ledger.length = list.length) := by
  by_cases hful : db.ledger.length = list.length
  · rw [migrateOne_done exec hg hful] at h
    cases h
    refine ⟨hg, rfl, ?_, fun _ => ⟨rfl, hful⟩⟩
    intro hx
    exact absurd hx (by simp)
  · have hlt : db.ledger.length < list.length := by
      have := hg.2.1
      omega
    rw [migrateOne_step exec hg hlt] at h
    cases hdo : (migAt list db.ledger.length).Migration.DoMigration exec db.schema with
    | error c => rw [hdo] at h; cases h
    | ok s1 =>
      rw [hdo] at h
      cases h
      refine ⟨⟨rfl, by simp; omega, ?_⟩, rfl, fun _ => ⟨rfl, hlt⟩, ?_⟩
      · simp only [List.length_append, List.length_cons, List.length_nil]
        exact sortLedger_snoc hg.2.2
      · intro hx
        exact absurd hx (by simp)

/-- Unfolding: `migrateOne` fails, so the loop stops with that error and
the state unchanged. -/
theorem migrateLoop_error {exec : String → σ → Except String σ}
    {list : List (NamedMigration σ)} {db : DB σ} {e : MigErr}
    (h : migrateOne exec list db = .error e) :
    migrateLoop exec list db = (some e, db) := by
  rw [migrateLoop]
  split
  · rename_i e1 heq
    rw [h] at heq
    cases heq
    rfl
  · rename_i r1 heq
    rw [h] at heq
    cases heq

/-- Unfolding: `migrateOne` performed a migration, so the loop iterates on
the new state. -/
theorem migrateLoop_step {exec : String → σ → Except String σ}
    {list : List (NamedMigration σ)} {db : DB σ} {r : MigOk σ}
    (h : migrateOne exec list db = .ok r) (hm : r.migrated = true) :
    migrateLoop exec list db = migrateLoop exec list r.db := by
  rw [migrateLoop]
  split
  · rename_i e1 heq
    rw [h] at heq
    cases heq
  · rename_i r1 heq
    rw [h] at heq
    cases heq
    rw [dif_pos hm]

/-- Unfolding: `migrateOne` reported no unapplied migration, so the loop
stops successfully. -/
theorem migrateLoop_done {exec : String → σ → Except String σ}
    {list : List (NamedMigration σ)} {db : DB σ} {r : MigOk σ}
    (h : migrateOne exec list db = .ok r) (hm : r.migrated = false) :
    migrateLoop exec list db = (none, r.db) := by
  rw [migrateLoop]
  split
  · rename_i e1 heq
    rw [h] at heq
    cases heq
  · rename_i r1 heq
    rw [h] at heq
    cases heq
    rw [dif_neg (by simp [hm])]

/-- Fuel-indexed induction principle for the `Migrate` loop: every
outcome (error or success) preserves the ledger invariant, success means
the full list is applied, and an error of kind `MigrationFailed i n c` is
reported exactly at the state whose ledger holds the first `i` rows, with
the forward step failing there. -/
theorem migrateLoop_invariant (exec : String → σ → Except String σ)
    (list : List (NamedMigration σ)) :
    ∀ (n : Nat) (db : DB σ), list.length + 1 - db.ledger.length ≤ n →
      GoodLedger list db →
      GoodLedger list (migrateLoop exec list db).2
        ∧ ((migrateLoop exec list db).1 = none →
            (migrateLoop exec list db).2.ledger.length = list.length)
        ∧ (∀ i nm c, (migrateLoop exec list db).1 = some (.MigrationFailed i nm c) →
            (migrateLoop exec list db).2.ledger.length = i ∧ i < list.length
              ∧ nm = nameAt list i
              ∧ (migAt list i).Migration.DoMigration exec
                  (migrateLoop exec list db).2.schema = .error c) := by
  intro n
  induction n with
  | zero =>
    intro db hn hg
    have := hg.2.1
    omega
  | succ m ih =>
    intro db hn hg
    cases h : migrateOne exec list db with
    | error e =>
      rw [migrateLoop_error h]
      refine ⟨hg, by intro hx; simp at hx, ?_⟩
      intro i nm c hx
      simp only [Option.some.injEq] at hx
      subst hx
      by_cases hful : db.ledger.length = list.length
      · rw [migrateOne_done exec hg hful] at h
        cases h
      · have hlt : db.ledger.length < list.length := by
          have := hg.2.1
          omega
        rw [migrateOne_step exec hg hlt] at h
        cases hdo : (migAt list db.ledger.length).Migration.DoMigration exec db.schema with
        | error c0 =>
          rw [hdo] at h
          cases h
          exact ⟨rfl, hlt, rfl, hdo⟩
        | ok s1 =>
          rw [hdo] at h
          cases h
    | ok r =>
      obtain ⟨hgood, hcm, hmig, hdone⟩ := migrateOne_preserves exec hg h
      cases hm : r.migrated with
      | true =>
        rw [migrateLoop_step h hm]
        refine ih r.db ?_ hgood
        obtain ⟨-, hlen⟩ := migrateOne_growth exec list db r h hm
        omega
      | false =>
        rw [migrateLoop_done h hm]
        obtain ⟨heq, hful⟩ := hdone hm
        refine ⟨hgood, ?_, ?_⟩
        · intro _
          rw [heq]
          exact hful
        · intro i nm c hx
          simp at hx

/-- `rollbackOne`: one rollback-one transaction. Begin, lock the ledger
table, verify, range-check the requested target, require a `Reverse`
migration for the top applied index, apply it, delete that ledger row,
and commit. An error rolls the transaction back, so the caller keeps the
unchanged state. Returns the index just rolled back. -/
def rollbackOne (exec : String → σ → Except String σ) (list : List (NamedMigration σ))
    (db : DB σ) (rollBackThroughIndex : Int) : Except MigErr (Nat × DB σ) :=
  if db.tableExists = false then .error .LedgerUnreachable
  else
    match verifyMigrations list (sortLedger db.ledger) with
    | .error e => .error (.Verify e)
    | .ok fu =>
      if rollBackThroughIndex < 0 then
        .error (.InvalidTarget rollBackThroughIndex)
      else if (fu : Int) ≤ rollBackThroughIndex then
        .error (.NotYetApplied rollBackThroughIndex)
      else
        let index := fu - 1
        let m := migAt list index
        match m.Reverse with
        | none => .error (.NoReverse index m.Name)
        | some rev =>
          match rev.DoMigration exec db.schema with
          | .error c => .error (.RollbackFailed index m.Name c)
          | .ok s1 =>
            .ok (index,
              ⟨true, db.ledger.filter (fun r => !(r.index == (index : Int))), s1⟩)

/-- Unconditional shrink fact used for termination of the `Rollback`
loop: a committed rollback-one step strictly shortens the ledger. -/
theorem rollbackOne_shrinks (exec : String → σ → Except String σ)
    (list : List (NamedMigration σ)) (db : DB σ) (t : Int) (i : Nat) (db2 : DB σ)
    (h : rollbackOne exec list db t = .ok (i, db2)) :
    db2.ledger.length < db.ledger.length := by
  unfold rollbackOne at h
  split at h
  · cases h
  · split at h
    · cases h
    · rename_i fu hv
      split at h
      · cases h
      · split at h
        · cases h
        · rename_i ht0 htle
          simp only [] at h
          split at h
          · cases h
          · split at h
            · cases h
            · cases h
              rename_i rev hrev s1 hdo
              have hfu : 1 ≤ fu := by omega
              have hshape := (verify_ok_shape _ _ _ hv).1
              have hmem : (⟨((fu - 1 : Nat) : Int), nameAt list (fu - 1)⟩ : Row) ∈ db.ledger := by
                have h1 : (⟨((fu - 1 : Nat) : Int), nameAt list (fu - 1)⟩ : Row) ∈ ledgerRows list fu := by
                  simp only [ledgerRows, List.mem_map, List.mem_range]
                  exact ⟨fu - 1, by omega, rfl⟩
                rw [← hshape] at h1
                exact (sortLedger_perm db.ledger).mem_iff.1 h1
              refine List.length_filter_lt_length_iff_exists.mpr ⟨_, hmem, ?_⟩
              simp

/-- The `Rollback` loop body with its trace: repeat `rollbackOne`,
collecting the indices rolled back in order, until the index just rolled
back equals the requested target or an error occurs. -/
def rollbackLoop (exec : String → σ → Except String σ) (list : List (NamedMigration σ))
    (t : Int) (db : DB σ) : List Nat × Option MigErr × DB σ :=
  match h : rollbackOne exec list db t with
  | .error e => ([], some e, db)
  | .ok (i, db2) =>
    if (i : Int) = t then
      ([i], none, db2)
    else
      let rest := rollbackLoop exec list t db2
      (i :: rest.1, rest.2.1, rest.2.2)
termination_by db.ledger.length
decreasing_by
  exact rollbackOne_shrinks exec list db t i db2 h

/-- `Rollback`: ensure the ledger table exists, then drive `rollbackOne`
until the requested index has been rolled back. Returns the error (Go:
the non-nil return) together with the database state the caller is left
with. -/
def Rollback (exec : String → σ → Except String σ) (list : List (NamedMigration σ))
    (t : Int) (db : DB σ) : Option MigErr × DB σ :=
  ((rollbackLoop exec list t (ensureMigrationsTableExists db)).2.1,
    (rollbackLoop exec list t (ensureMigrationsTableExists db)).2.2)

/-- Unfolding of one rollback-one transaction under the ledger invariant:
verification succeeds with `first_unapplied = ledger.length`, so the
behaviour is the chain of target checks followed by the reverse
application and the single-row delete. -/
theorem rollbackOne_eq (exec : String → σ → Except String σ)
    {list : List (NamedMigration σ)} {db : DB σ} (hg : GoodLedger list db) (t : Int) :
    rollbackOne exec list db t =
      (if t < 0 then .error (.InvalidTarget t)
      else if (db.ledger.length : Int) ≤ t then .error (.NotYetApplied t)
      else
        match (migAt list (db.ledger.length - 1)).Reverse with
        | none =>
          .error (.NoReverse (db.ledger.length - 1) (migAt list (db.ledger.length - 1)).Name)
        | some rev =>
          match rev.DoMigration exec db.schema with
          | .error c =>
            .error (.RollbackFailed (db.ledger.length - 1)
              (migAt list (db.ledger.length - 1)).Name c)
          | .ok s1 =>
            .ok (db.ledger.length - 1,
              ⟨true,
                db.ledger.filter
                  (fun r => !(r.index == ((db.ledger.length - 1 : Nat) : Int))),
                s1⟩)) := by
  unfold rollbackOne
  rw [if_neg (by simp [hg.1]), hg.verify]

theorem ledgerRows_filter_last (list : List (NamedMigration σ)) (k : Nat) :
    (ledgerRows list (k + 1)).filter (fun r => !(r.index == (k : Int)))
      = ledgerRows list k := by
  rw [ledgerRows_succ, List.filter_append]
  have h1 : (ledgerRows list k).filter (fun r => !(r.index == (k : Int)))
      = ledgerRows list k := by
    rw [List.filter_eq_self]
    intro r hr
    simp only [ledgerRows, List.mem_map, List.mem_range] at hr
    obtain ⟨i, hi, hrow⟩ := hr
    rw [← hrow]
    simp only [Bool.not_eq_eq_eq_not, Bool.not_true, beq_eq_false_iff_ne, ne_eq]
    intro hx
    have : i = k := by exact_mod_cast hx
    omega
  have h2 : ([(⟨(k : Int), nameAt list k⟩ : Row)]).filter
      (fun r => !(r.index == (k : Int))) = [] := by
    simp
  rw [h1, h2, List.append_nil]

/-- Deleting the ledger row with the top applied index from a canonical
ledger of `k + 1` rows leaves a canonical ledger of `k` rows. -/
theorem rollback_delete_good {list : List (NamedMigration σ)} {db : DB σ}
    (hg : GoodLedger list db) (k : Nat) (hk : db.ledger.length = k + 1) (s1 : σ) :
    GoodLedger list
        (⟨true, db.ledger.filter (fun r => !(r.index == (k : Int))), s1⟩ : DB σ)
      ∧ (db.ledger.filter (fun r => !(r.index == (k : Int)))).length = k := by
  have hperm : List.Perm db.ledger (ledgerRows list (k + 1)) := by
    have h1 : List.Perm db.ledger (sortLedger db.ledger) := (sortLedger_perm db.ledger).symm
    rw [hg.2.2, hk] at h1
    exact h1
  have hpf : List.Perm (db.ledger.filter (fun r => !(r.index == (k : Int))))
      (ledgerRows list k) := by
    have := hperm.filter (fun r => !(r.index == (k : Int)))
    rwa [ledgerRows_filter_last] at this
  have hlenf : (db.ledger.filter (fun r => !(r.index == (k : Int)))).length = k := by
    rw [hpf.length_eq, ledgerRows_length]
  refine ⟨⟨rfl, ?_, ?_⟩, hlenf⟩
  · have := hg.2.1
    simp only [hlenf]
    omega
  · simp only [hlenf]
    exact sorted_perm_ledgerRows_eq ((sortLedger_perm _).trans hpf) (sortLedger_sorted _)

/-- Unfolding: `rollbackOne` fails, so the loop stops with that error, an
empty trace, and the state unchanged. -/
theorem rollbackLoop_error {exec : String → σ → Except String σ}
    {list : List (NamedMigration σ)} {db : DB σ} {t : Int} {e : MigErr}
    (h : rollbackOne exec list db t = .error e) :
    rollbackLoop exec list t db = ([], some e, db) := by
  rw [rollbackLoop]
  split
  · rename_i e1 heq
    rw [h] at heq
    cases heq
    rfl
  · rename_i i db2 heq
    rw [h] at heq
    cases heq

/-- Unfolding: `rollbackOne` rolled back exactly the requested index, so
the loop stops successfully. -/
theorem rollbackLoop_last {exec : String → σ → Except String σ}
    {list : List (NamedMigration σ)} {db : DB σ} {t : Int} {i : Nat} {db2 : DB σ}
    (h : rollbackOne exec list db t = .ok (i, db2)) (hi : (i : Int) = t) :
    rollbackLoop exec list t db = ([i], none, db2) := by
  rw [rollbackLoop]
  split
  · rename_i e1 heq
    rw [h] at heq
    cases heq
  · rename_i i1 db3 heq
    rw [h] at heq
    cases heq
    rw [if_pos hi]

/-- Unfolding: `rollbackOne` rolled back an index above the requested
target, so the loop iterates on the new state. -/
theorem rollbackLoop_cont {exec : String → σ → Except String σ}
    {list : List (NamedMigration σ)} {db : DB σ} {t : Int} {i : Nat} {db2 : DB σ}
    (h : rollbackOne exec list db t = .ok (i, db2)) (hi : ¬ (i : Int) = t) :
    rollbackLoop exec list t db =
      (i :: (rollbackLoop exec list t db2).1,
        (rollbackLoop exec list t db2).2.1, (rollbackLoop exec list t db2).2.2) := by
  rw [rollbackLoop]
  split
  · rename_i e1 heq
    rw [h] at heq
    cases heq
  · rename_i i1 db3 heq
    rw [h] at heq
    cases heq
    rw [if_neg hi]

/-- Successful run of the rollback loop: starting from a canonical ledger
of `t + n + 1` rows with reverses available and succeeding for every index
from `t` up, the loop rolls back indices `t+n, t+n-1, …, t` in strictly
decreasing order, one transaction each, and stops with a canonical ledger
of `t` rows. -/
theorem rollbackLoop_run (exec : String → σ → Except String σ)
    (list : List (NamedMigration σ)) :
    ∀ (n : Nat) (db : DB σ) (t : Nat), GoodLedger list db →
      db.ledger.length = t + n + 1 →
      (∀ i, t ≤ i → i < db.ledger.length →
        ∃ rev, (migAt list i).Reverse = some rev ∧
          ∀ s, ∃ s2, rev.DoMigration exec s = .ok s2) →
      ∃ dbf, rollbackLoop exec list (t : Int) db
          = ((List.range' t (n + 1)).reverse, none, dbf)
        ∧ GoodLedger list dbf ∧ dbf.ledger.length = t := by
  intro n
  induction n with
  | zero =>
    intro db t hg hk hrev
    obtain ⟨rev, hrv, hok⟩ := hrev t (le_refl t) (by omega)
    obtain ⟨s2, hs2⟩ := hok db.schema
    have htop : db.ledger.length - 1 = t := by omega
    have hc1 : ¬ ((t : Int) < 0) := by omega
    have hc2 : ¬ ((db.ledger.length : Int) ≤ ((t : Nat) : Int)) := by
      rw [hk]
      omega
    have h1 : rollbackOne exec list db (t : Int) =
        .ok (t, ⟨true, db.ledger.filter (fun r => !(r.index == (t : Int))), s2⟩) := by
      rw [rollbackOne_eq exec hg, if_neg hc1, if_neg hc2, htop, hrv]
      dsimp only
      rw [hs2]
    obtain ⟨hgood, hlen⟩ := rollback_delete_good hg t (by omega) s2
    refine ⟨_, ?_, hgood, hlen⟩
    rw [rollbackLoop_last h1 rfl]
    rfl
  | succ m ih =>
    intro db t hg hk hrev
    have hi : db.ledger.length - 1 = t + m + 1 := by omega
    obtain ⟨rev, hrv, hok⟩ := hrev (t + m + 1) (by omega) (by omega)
    obtain ⟨s2, hs2⟩ := hok db.schema
    have hc1 : ¬ ((t : Int) < 0) := by omega
    have hc2 : ¬ ((db.ledger.length : Int) ≤ ((t : Nat) : Int)) := by
      rw [hk]
      omega
    have h1 : rollbackOne exec list db (t : Int) =
        .ok (t + m + 1,
          ⟨true, db.ledger.filter (fun r => !(r.index == ((t + m + 1 : Nat) : Int))),
            s2⟩) := by
      rw [rollbackOne_eq exec hg, if_neg hc1, if_neg hc2, hi, hrv]
      dsimp only
      rw [hs2]
    obtain ⟨hgood, hlen⟩ := rollback_delete_good hg (t + m + 1) (by omega) s2
    set db2 : DB σ :=
      ⟨true, db.ledger.filter (fun r => !(r.index == ((t + m + 1 : Nat) : Int))), s2⟩ with hdb2
    have hrev2 : ∀ i, t ≤ i → i < db2.ledger.length →
        ∃ rv, (migAt list i).Reverse = some rv ∧
          ∀ s, ∃ s3, rv.DoMigration exec s = .ok s3 := by
      intro i hti hilt
      refine hrev i hti ?_
      have : db2.ledger.length = t + m + 1 := hlen
      omega
    obtain ⟨dbf, hloop, hgf, hlf⟩ := ih db2 t hgood (by simpa using hlen) hrev2
    refine ⟨dbf, ?_, hgf, hlf⟩
    rw [rollbackLoop_cont h1 (by omega), hloop]
    have htr : (List.range' t (m + 1 + 1)).reverse
        = (t + m + 1) :: (List.range' t (m + 1)).reverse := by
      have hc : List.range' t (m + 1 + 1) = List.range' t (m + 1) ++ [t + 1 * (m + 1)] :=
        List.range'_concat t (m + 1)
      rw [hc, List.reverse_append]
      simp only [List.reverse_singleton, List.singleton_append, List.cons.injEq]
      exact ⟨by omega, trivial⟩
    rw [htr]

theorem ensure_id {db : DB σ} (ht : db.tableExists = true) :
    ensureMigrationsTableExists db = db := by
  unfold ensureMigrationsTableExists
  rw [if_pos ht]

/-- A successful rollback-one transaction under the ledger invariant rolls
back exactly the top applied index: it deletes that single row (every
other ledger index is strictly smaller) and preserves the invariant. -/
theorem rollbackOne_ok_good {exec : String → σ → Except String σ}
    {list : List (NamedMigration σ)} {db : DB σ} {t : Int} {i : Nat} {db2 : DB σ}
    (hg : GoodLedger list db) (h : rollbackOne exec list db t = .ok (i, db2)) :
    i = db.ledger.length - 1 ∧ 1 ≤ db.ledger.length ∧ GoodLedger list db2
      ∧ db2.ledger.length = db.ledger.length - 1
      ∧ db2.ledger = db.ledger.filter (fun r => !(r.index == (i : Int)))
      ∧ 0 ≤ t ∧ t < (db.ledger.length : Int)
      ∧ (∀ r0 ∈ db.ledger, r0.index ≤ (i : Int)) := by
  rw [rollbackOne_eq exec hg] at h
  split at h
  · cases h
  · split at h
    · cases h
    · rename_i ht0 htlt
      split at h
      · cases h
      · rename_i rev hrev
        split at h
        · cases h
        · rename_i s1 hdo
          cases h
          have hpos : 1 ≤ db.ledger.length := by omega
          obtain ⟨hgood, hlen⟩ :=
            rollback_delete_good hg (db.ledger.length - 1) (by omega) s1
          refine ⟨rfl, hpos, hgood, hlen, rfl, by omega, by omega, ?_⟩
          intro r0 hr0
          have := hg.index_lt hr0
          omega

/-- Every outcome of the rollback loop preserves the ledger invariant, and
an error leaves exactly the state of the step that failed. -/
theorem rollbackLoop_invariant (exec : String → σ → Except String σ)
    (list : List (NamedMigration σ)) :
    ∀ (n : Nat) (db : DB σ) (t : Int), db.ledger.length ≤ n → GoodLedger list db →
      GoodLedger list (rollbackLoop exec list t db).2.2 := by
  intro n
  induction n with
  | zero =>
    intro db t hn hg
    cases h : rollbackOne exec list db t with
    | error e =>
      rw [rollbackLoop_error h]
      exact hg
    | ok p =>
      obtain ⟨i, db2⟩ := p
      have := rollbackOne_shrinks exec list db t i db2 h
      omega
  | succ m ih =>
    intro db t hn hg
    cases h : rollbackOne exec list db t with
    | error e =>
      rw [rollbackLoop_error h]
      exact hg
    | ok p =>
      obtain ⟨i, db2⟩ := p
      obtain ⟨-, -, hgood, hlen2, -, -, -, -⟩ := rollbackOne_ok_good hg h
      by_cases hi : (i : Int) = t
      · rw [rollbackLoop_last h hi]
        exact hgood
      · rw [rollbackLoop_cont h hi]
        refine ih db2 t ?_ hgood
        have := rollbackOne_shrinks exec list db t i db2 h
        omega

/-- Claim C2: for every declared migration list and every starting state
that satisfies it, after any `Migrate` or `Rollback` call — with or
without error — the ledger read in index order is exactly
`(0, list[0].Name) … (k-1, list[k-1].Name)` for some `k` (`GoodLedger`);
each committed `migrateOne` transaction appends exactly the row
`(first_unapplied, list[first_unapplied].Name)`, and each committed
`rollbackOne` transaction deletes exactly the row carrying the highest
applied index. -/
theorem claim2_ledger_invariant (σ : Type) (exec : String → σ → Except String σ)
    (list : List (NamedMigration σ)) (db : DB σ) (hg : GoodLedger list db) :
    GoodLedger list (Migrate exec list db).2
    ∧ (∀ t, GoodLedger list (Rollback exec list t db).2)
    ∧ (∀ r, migrateOne exec list db = .ok r → r.committed = true →
        r.db.ledger
          = db.ledger ++ [⟨(db.ledger.length : Int), nameAt list db.ledger.length⟩])
    ∧ (∀ t i db2, rollbackOne exec list db t = .ok (i, db2) →
        db2.ledger = db.ledger.filter (fun r0 => !(r0.index == (i : Int)))
          ∧ i = db.ledger.length - 1 ∧ ∀ r0 ∈ db.ledger, r0.index ≤ (i : Int)) := by
  refine ⟨?_, ?_, ?_, ?_⟩
  · unfold Migrate
    rw [ensure_id hg.1]
    exact (migrateLoop_invariant exec list (list.length + 1) db
      (by have := hg.2.1; omega) hg).1
  · intro t
    unfold Rollback
    rw [ensure_id hg.1]
    exact rollbackLoop_invariant exec list db.ledger.length db t (le_refl _) hg
  · intro r h hc
    obtain ⟨-, hcm, hmig, -⟩ := migrateOne_preserves exec hg h
    exact (hmig (by rw [← hcm]; exact hc)).1
  · intro t i db2 h
    obtain ⟨hi, -, -, -, hfil, -, -, htop⟩ := rollbackOne_ok_good hg h
    exact ⟨hfil, hi, htop⟩

/-- Claim C3: a failing forward apply aborts only its own step: the
apply-one transaction surfaces `MigrationFailed(index, name, cause)` and,
because it is an error, the caller keeps the unchanged state; when
`Migrate` surfaces such an error, the final state still satisfies the
ledger invariant with exactly the steps below the failing index applied
and recorded, and the failing forward apply is reproducible on that
state's schema. -/
theorem claim3_monotonic_commit (σ : Type) (exec : String → σ → Except String σ)
    (list : List (NamedMigration σ)) (db : DB σ) (hg : GoodLedger list db) :
    (∀ c, db.ledger.length < list.length →
      (migAt list db.ledger.length).Migration.DoMigration exec db.schema = .error c →
      migrateOne exec list db
        = .error (.MigrationFailed db.ledger.length
            (migAt list db.ledger.length).Name c))
    ∧ (∀ i nm c, (Migrate exec list db).1 = some (.MigrationFailed i nm c) →
        GoodLedger list (Migrate exec list db).2
          ∧ (Migrate exec list db).2.ledger.length = i ∧ i < list.length
          ∧ nm = nameAt list i
          ∧ (migAt list i).Migration.DoMigration exec (Migrate exec list db).2.schema
              = .error c) := by
  constructor
  · intro c hlt hdo
    rw [migrateOne_step exec hg hlt, hdo]
  · intro i nm c hx
    unfold Migrate at hx ⊢
    rw [ensure_id hg.1] at hx ⊢
    obtain ⟨hgood, -, herr⟩ := migrateLoop_invariant exec list (list.length + 1) db
      (by have := hg.2.1; omega) hg
    obtain ⟨h1, h2, h3, h4⟩ := herr i nm c hx
    exact ⟨hgood, h1, h2, h3, h4⟩

/-- Claim C4: with `top = first_unapplied - 1` and a target
`0 ≤ through ≤ top` whose reverses all exist and succeed, `Rollback`
reverses one migration per transaction in strictly decreasing index order
`top, top-1, …, through` (the trace is the reversal of
`range' through (top+1-through)`), ends with exactly the first `through`
rows in the ledger, and returns nil precisely because the last
rolled-back index equals `through`. -/
theorem claim4_rollback_order (σ : Type) (exec : String → σ → Except String σ)
    (list : List (NamedMigration σ)) (db : DB σ) (t : Int)
    (hg : GoodLedger list db) (h0 : 0 ≤ t) (h1 : t < (db.ledger.length : Int))
    (hrev : ∀ i, t.toNat ≤ i → i < db.ledger.length →
      ∃ rev, (migAt list i).Reverse = some rev ∧
        ∀ s, ∃ s2, rev.DoMigration exec s = .ok s2) :
    ∃ dbf,
      rollbackLoop exec list t db
          = ((List.range' t.toNat (db.ledger.length - t.toNat)).reverse, none, dbf)
        ∧ Rollback exec list t db = (none, dbf)
        ∧ GoodLedger list dbf ∧ dbf.ledger.length = t.toNat := by
  have htn : ((t.toNat : Nat) : Int) = t := Int.toNat_of_nonneg h0
  have hcount : db.ledger.length = t.toNat + (db.ledger.length - t.toNat - 1) + 1 := by
    omega
  obtain ⟨dbf, hloop, hgf, hlf⟩ :=
    rollbackLoop_run exec list (db.ledger.length - t.toNat - 1) db t.toNat hg hcount hrev
  rw [htn] at hloop
  have hnn : db.ledger.length - t.toNat = db.ledger.length - t.toNat - 1 + 1 := by
    omega
  refine ⟨dbf, ?_, ?_, hgf, hlf⟩
  · rw [hnn]
    exact hloop
  · unfold Rollback
    rw [ensure_id hg.1, hloop]

/-- Claim C5: under the ledger invariant, `rollbackOne` rejects a negative
target with `InvalidTarget`, a target at or above the first unapplied
index with `NotYetApplied`, and a missing reverse for the top applied
migration with `NoReverse`; in each case the transaction rolls back before
any reverse SQL runs or any ledger row is deleted, so `Rollback` returns
that error with the database state unchanged. -/
theorem claim5_rollback_guard_errors (σ : Type) (exec : String → σ → Except String σ)
    (list : List (NamedMigration σ)) (db : DB σ) (hg : GoodLedger list db) :
    (∀ t : Int, t < 0 →
      rollbackOne exec list db t = .error (.InvalidTarget t)
        ∧ Rollback exec list t db = (some (.InvalidTarget t), db))
    ∧ (∀ t : Int, 0 ≤ t → (db.ledger.length : Int) ≤ t →
      rollbackOne exec list db t = .error (.NotYetApplied t)
        ∧ Rollback exec list t db = (some (.NotYetApplied t), db))
    ∧ (∀ t : Int, 0 ≤ t → t < (db.ledger.length : Int) →
        (migAt list (db.ledger.length - 1)).Reverse = none →
      rollbackOne exec list db t
          = .error (.NoReverse (db.ledger.length - 1)
              (migAt list (db.ledger.length - 1)).Name)
        ∧ Rollback exec list t db
          = (some (.NoReverse (db.ledger.length - 1)
              (migAt list (db.ledger.length - 1)).Name), db)) := by
  refine ⟨?_, ?_, ?_⟩
  · intro t ht
    have h1 : rollbackOne exec list db t = .error (.InvalidTarget t) := by
      rw [rollbackOne_eq exec hg, if_pos ht]
    refine ⟨h1, ?_⟩
    unfold Rollback
    rw [ensure_id hg.1, rollbackLoop_error h1]
  · intro t ht0 htle
    have h1 : rollbackOne exec list db t = .error (.NotYetApplied t) := by
      rw [rollbackOne_eq exec hg, if_neg (by omega), if_pos htle]
    refine ⟨h1, ?_⟩
    unfold Rollback
    rw [ensure_id hg.1, rollbackLoop_error h1]
  · intro t ht0 htlt hnr
    have h1 : rollbackOne exec list db t
        = .error (.NoReverse (db.ledger.length - 1)
            (migAt list (db.ledger.length - 1)).Name) := by
      rw [rollbackOne_eq exec hg, if_neg (by omega), if_neg (by omega), hnr]
    refine ⟨h1, ?_⟩
    unfold Rollback
    rw [ensure_id hg.1, rollbackLoop_error h1]

/-- Under the ledger invariant with every declared migration applied,
`migrateOne` returns `migrated = false` with `committed = false` — the
deferred `tx.Rollback()` runs, not `tx.Commit()` — performing no
migration and inserting no ledger row, and the `Migrate` loop then
terminates returning nil with the state unchanged. -/
theorem claim6_done_behaviour (σ : Type) (exec : String → σ → Except String σ)
    (list : List (NamedMigration σ)) (db : DB σ) (hg : GoodLedger list db)
    (hful : db.ledger.length = list.length) :
    migrateOne exec list db = .ok ⟨false, false, db⟩
      ∧ Migrate exec list db = (none, db) := by
  have h1 := migrateOne_done exec hg hful
  refine ⟨h1, ?_⟩
  unfold Migrate
  rw [ensure_id hg.1]
  exact migrateLoop_done h1 rfl

/-- Trivial SQL interpreter over the one-point schema, used for concrete
witness states. -/
def execUnit : String → Unit → Except String Unit := fun _ s => .ok s

/-- A one-entry migration list with a working reverse. -/
def listW : List (NamedMigration Unit) :=
  [{ Name := "create t1", Migration := .Static ["CREATE TABLE t1"],
     Reverse := some (.Static ["DROP TABLE t1"]) }]

/-- A one-entry migration list whose forward apply always fails. -/
def listFail : List (NamedMigration Unit) :=
  [{ Name := "bad", Migration := .Custom (fun _ => .error "boom"), Reverse := none }]

/-- A one-entry migration list without a reverse. -/
def listNoRev : List (NamedMigration Unit) :=
  [{ Name := "m0", Migration := .Static [], Reverse := none }]

/-- An empty database whose ledger table exists. -/
def dbEmptyU : DB Unit := ⟨true, [], ()⟩

/-- A database on which all of `listW` is applied. -/
def dbOneW : DB Unit := ⟨true, [⟨0, "create t1"⟩], ()⟩

/-- A database on which all of `listNoRev` is applied. -/
def dbOneNoRev : DB Unit := ⟨true, [⟨0, "m0"⟩], ()⟩

theorem claim2_witness :
    GoodLedger listW (Migrate execUnit listW dbEmptyU).2
      ∧ GoodLedger listW (Rollback execUnit listW 0 dbOneW).2 :=
  ⟨(claim2_ledger_invariant Unit execUnit listW dbEmptyU (by decide)).1,
    (claim2_ledger_invariant Unit execUnit listW dbOneW (by decide)).2.1 0⟩

theorem claim3_witness :
    migrateOne execUnit listFail dbEmptyU = .error (.MigrationFailed 0 "bad" "boom") :=
  (claim3_monotonic_commit Unit execUnit listFail dbEmptyU (by decide)).1 "boom"
    (by decide) rfl

theorem claim4_witness :
    ∃ dbf, rollbackLoop execUnit listW 0 dbOneW = ([0], none, dbf)
      ∧ Rollback execUnit listW 0 dbOneW = (none, dbf)
      ∧ GoodLedger listW dbf ∧ dbf.ledger.length = 0 := by
  have hrev : ∀ i, (0 : Int).toNat ≤ i → i < dbOneW.ledger.length →
      ∃ rev, (migAt listW i).Reverse = some rev ∧
        ∀ s, ∃ s2, rev.DoMigration execUnit s = .ok s2 := by
    intro i hi0 hi1
    have hiz : i = 0 := by
      simp only [dbOneW, List.length_cons, List.length_nil] at hi1
      omega
    subst hiz
    exact ⟨.Static ["DROP TABLE t1"], rfl, fun s => ⟨s, rfl⟩⟩
  exact claim4_rollback_order Unit execUnit listW dbOneW 0 (by decide) (by decide)
    (by decide) hrev

theorem claim5_witness :
    (rollbackOne execUnit listNoRev dbOneNoRev (-1) = .error (.InvalidTarget (-1))
        ∧ Rollback execUnit listNoRev (-1) dbOneNoRev
            = (some (.InvalidTarget (-1)), dbOneNoRev))
      ∧ (rollbackOne execUnit listNoRev dbOneNoRev 0 = .error (.NoReverse 0 "m0")
        ∧ Rollback execUnit listNoRev 0 dbOneNoRev
            = (some (.NoReverse 0 "m0"), dbOneNoRev)) :=
  ⟨(claim5_rollback_guard_errors Unit execUnit listNoRev dbOneNoRev (by decide)).1
      (-1) (by decide),
    (claim5_rollback_guard_errors Unit execUnit listNoRev dbOneNoRev (by decide)).2.2
      0 (by decide) (by decide) rfl⟩

/-- Claim C6 counterexample: on a fully applied list the apply-one step
does not commit its transaction — the source returns `false, nil` with
the `committed` flag still false, so the deferred `tx.Rollback()` runs.
The claim's "commits its transaction" is therefore false at this
input. -/
theorem claim6_counterexample :
    ¬ ∃ r : MigOk Unit, migrateOne execUnit listNoRev dbOneNoRev = .ok r
        ∧ r.committed = true := by
  rintro ⟨r, h, hc⟩
  have h0 : migrateOne execUnit listNoRev dbOneNoRev
      = .ok ⟨false, false, dbOneNoRev⟩ := rfl
  rw [h0] at h
  cases h
  exact absurd hc (by simp)

theorem claim6_witness :
    migrateOne execUnit listNoRev dbOneNoRev = .ok ⟨false, false, dbOneNoRev⟩
      ∧ Migrate execUnit listNoRev dbOneNoRev = (none, dbOneNoRev) :=
  claim6_done_behaviour Unit execUnit listNoRev dbOneNoRev (by decide) (by decide)

/-- `PostgresConfig` from the source: the five connection fields. -/
structure PostgresConfig where
  Host : String
  Port : String
  Database : String
  User : String
  Password : String
deriving DecidableEq

/-- The `pg_dump` invocation built by `dump`: the flags `-s` (schema
only), `-h Host`, `-p Port`, `-U User`, `--restrict-key=key` (pinned,
because an unspecified restrict key is randomised per invocation and the
output would not be repeatable), then the database name. -/
structure DumpCmd where
  schemaOnly : Bool
  host : String
  port : String
  user : String
  restrictKey : Option String
  database : String
deriving DecidableEq

/-- The argument list `dump` passes to `pg_dump`, in source order. -/
def dumpCmd (c : PostgresConfig) : DumpCmd :=
  ⟨true, c.Host, c.Port, c.User, some "key", c.Database⟩

/-- Modelled from the spec: the external `pg_dump` subprocess, which is
not part of this repository. Per the spec, its schema-only output is a
function of the logical schema and of the restrict key — a value pg_dump
randomises per invocation unless a `--restrict-key` option pins it.
`render` abstracts the schema-to-text rendering and `nonce` the
per-invocation randomness. -/
def pgDumpModel (render : σ → String → String) (schema : σ) (cmd : DumpCmd)
    (nonce : String) : String :=
  render schema (cmd.restrictKey.getD nonce)

/-- `dump`: write the password file, build the pinned `pg_dump` command
for the given connection parameters, and return its output bytes. -/
def dump (render : σ → String → String) (c : PostgresConfig) (schema : σ)
    (nonce : String) : String :=
  pgDumpModel render schema (dumpCmd c) nonce

/-- The external world as `SchemaTest` sees it: the target database,
whether the catalog holds any user relation outside the system schemas
(the `verifyNoTables` query), and whether connecting succeeds. -/
structure World (σ : Type) where
  db : DB σ
  hasUserTables : Bool
  connectOk : Bool
deriving DecidableEq

/-- The errors surfaced by `SchemaTest`, mirroring the source's
`errors.New` / `fmt.Errorf` sites. -/
inductive STErr where
  | ConfigIncomplete
  | ConnectError
  | NonEmptyDatabase
  | SetupFailed (e : MigErr)
  | MigrateFailed (name : String) (e : MigErr)
  | RollbackStepFailed (name : String) (e : MigErr)
  | DumpMismatchAfterRollback (name : String)
  | DumpMismatchAfterRemigrate (name : String)
deriving DecidableEq

/-- The leading text of each `SchemaTest` error message in the source. -/
def STErr.message : STErr → String
  | .ConfigIncomplete => "All PostgresConfig fields must be specified"
  | .ConnectError => "Error connecting"
  | .NonEmptyDatabase =>
      "Existing tables found. You must run SchemaTest on an empty database."
  | .SetupFailed _ => "Setting up migrations table failed"
  | .MigrateFailed _ _ => "Migrate failed"
  | .RollbackStepFailed _ _ => "Rollback failed"
  | .DumpMismatchAfterRollback _ =>
      "Dump after rollback did not match the dump before the migration"
  | .DumpMismatchAfterRemigrate _ =>
      "Dump after re-migration did not match dump after first migration"

/-- One `dump` call inside `SchemaTest`: the counter numbers the
invocations (each subprocess run gets a fresh nonce) and counts how many
dumps have been taken. -/
def dumpST (render : σ → String → String) (c : PostgresConfig) (schema : σ)
    (ctr : Nat) : String × Nat :=
  (dump render c schema (toString ctr), ctr + 1)

/-- `migrateAndRollback` from the source: dump, migrate the list prefix up
to `migrateToIndex`, dump, roll back through `rollbackThroughIndex`, dump
and compare with the first dump; when `repeatForward` is set, re-apply the
prefix, dump again and compare with the post-migrate dump. Returns the
error (nil on success), the database state, and the dump counter. -/
def migrateAndRollback (exec : String → σ → Except String σ)
    (render : σ → String → String) (cfg : PostgresConfig)
    (list : List (NamedMigration σ)) (migrateToIndex rollbackThroughIndex : Int)
    (repeatForward : Bool) (db : DB σ) (ctr : Nat) :
    Option STErr × DB σ × Nat :=
  let d0 := dumpST render cfg db.schema ctr
  match Migrate exec (list.take (migrateToIndex + 1).toNat) db with
  | (some e, db1) =>
    (some (.MigrateFailed (migAt list migrateToIndex.toNat).Name e), db1, d0.2)
  | (none, db1) =>
    let d1 := dumpST render cfg db1.schema d0.2
    match Rollback exec list rollbackThroughIndex db1 with
    | (some e, db2) =>
      (some (.RollbackStepFailed (migAt list rollbackThroughIndex.toNat).Name e),
        db2, d1.2)
    | (none, db2) =>
      let d2 := dumpST render cfg db2.schema d1.2
      if d0.1 ≠ d2.1 then
        (some (.DumpMismatchAfterRollback (migAt list rollbackThroughIndex.toNat).Name),
          db2, d2.2)
      else if repeatForward then
        match Migrate exec (list.take (migrateToIndex + 1).toNat) db2 with
        | (some e, db3) =>
          (some (.MigrateFailed (migAt list migrateToIndex.toNat).Name e), db3, d2.2)
        | (none, db3) =>
          let d3 := dumpST render cfg db3.schema d2.2
          if d1.1 ≠ d3.1 then
            (some (.DumpMismatchAfterRemigrate (migAt list migrateToIndex.toNat).Name),
              db3, d3.2)
          else
            (none, db3, d3.2)
      else
        (none, db2, d2.2)

/-- The per-migration phase of `SchemaTest`: for each index, apply up to
it, roll it back, and re-apply (`migrateAndRollback` with
`repeatForward`). -/
def schemaTestLoop (exec : String → σ → Except String σ)
    (render : σ → String → String) (cfg : PostgresConfig)
    (list : List (NamedMigration σ)) :
    List Nat → DB σ → Nat → Option STErr × DB σ × Nat
  | [], db, ctr => (none, db, ctr)
  | i :: is, db, ctr =>
    match migrateAndRollback exec render cfg list (i : Int) (i : Int) true db ctr with
    | (some e, db1, c1) => (some e, db1, c1)
    | (none, db1, c1) => schemaTestLoop exec render cfg list is db1 c1

/-- `SchemaTest` from the source: reject a config with any empty field,
connect, require no user tables, bootstrap the ledger table by calling
`Migrate` with an empty list, run the apply-all/rollback-all phase
(without re-apply), then the per-migration round-trip phase. Returns the
error (nil on success), the final world, and how many dumps were
taken. -/
def SchemaTest (exec : String → σ → Except String σ)
    (render : σ → String → String) (cfg : PostgresConfig)
    (list : List (NamedMigration σ)) (w : World σ) :
    Option STErr × World σ × Nat :=
  if cfg.Host = "" ∨ cfg.Port = "" ∨ cfg.Database = "" ∨ cfg.User = ""
      ∨ cfg.Password = "" then
    (some .ConfigIncomplete, w, 0)
  else if w.connectOk = false then
    (some .ConnectError, w, 0)
  else if w.hasUserTables = true then
    (some .NonEmptyDatabase, w, 0)
  else
    match Migrate exec ([] : List (NamedMigration σ)) w.db with
    | (some e, db0) => (some (.SetupFailed e), { w with db := db0 }, 0)
    | (none, db0) =>
      match migrateAndRollback exec render cfg list ((list.length : Int) - 1) 0
          false db0 0 with
      | (some e, db1, c1) => (some e, { w with db := db1 }, c1)
      | (none, db1, c1) =>
        match schemaTestLoop exec render cfg list (List.range list.length) db1 c1 with
        | (r, db2, c2) => (r, { w with db := db2 }, c2)

/-- Claim C7: `dump` pins the one dumper option that would otherwise
inject per-invocation randomness — the restrict key — to the fixed value
`"key"` (and requests schema-only output), so under the spec's model of
`pg_dump` two invocations of `dump` against the same logical schema yield
byte-identical output whatever nonces the subprocess would have drawn. -/
theorem claim7_dump_deterministic (σ : Type) (render : σ → String → String)
    (c : PostgresConfig) (schema : σ) (n1 n2 : String) :
    dump render c schema n1 = dump render c schema n2
      ∧ (dumpCmd c).restrictKey = some "key"
      ∧ (dumpCmd c).schemaOnly = true :=
  ⟨rfl, rfl, rfl⟩

/-- Claim C8: with a complete config and a successful connection, a
target database holding any user relation outside the system schemas
makes `SchemaTest` return the `NonEmptyDatabase` error ("Existing tables
found") with the world unchanged and zero dumps taken — before the ledger
table is created, before any migration runs, and before any dump; and the
check runs only after connecting: a failed connection is reported
first. -/
theorem claim8_nonempty_database_guard (σ : Type)
    (exec : String → σ → Except String σ) (render : σ → String → String)
    (cfg : PostgresConfig) (list : List (NamedMigration σ)) (w : World σ)
    (hH : cfg.Host ≠ "") (hP : cfg.Port ≠ "") (hD : cfg.Database ≠ "")
    (hU : cfg.User ≠ "") (hW : cfg.Password ≠ "")
    (hc : w.connectOk = true) (ht : w.hasUserTables = true) :
    SchemaTest exec render cfg list w = (some .NonEmptyDatabase, w, 0)
      ∧ STErr.message .NonEmptyDatabase
          = "Existing tables found. You must run SchemaTest on an empty database."
      ∧ (∀ w2 : World σ, w2.connectOk = false →
          SchemaTest exec render cfg list w2 = (some .ConnectError, w2, 0)) := by
  refine ⟨?_, rfl, ?_⟩
  · unfold SchemaTest
    rw [if_neg (by tauto), if_neg (by simp [hc]), if_pos ht]
  · intro w2 hw2
    unfold SchemaTest
    rw [if_neg (by tauto), if_pos hw2]

/-- Claim C9: calling `Migrate` with an empty migration list on a
database whose ledger table is absent or empty succeeds: the table is
created exactly when `information_schema` shows no `migration` table
(otherwise the state is untouched), no ledger row is inserted, no
migration SQL runs, the schema is unchanged, and nil is returned.
`SchemaTest` issues exactly this call to bootstrap the ledger table. -/
theorem claim9_empty_migrate_bootstrap (σ : Type)
    (exec : String → σ → Except String σ) (db : DB σ)
    (h : db.tableExists = false ∨ db.ledger = []) :
    Migrate exec ([] : List (NamedMigration σ)) db
        = (none, (⟨true, [], db.schema⟩ : DB σ))
      ∧ (db.tableExists = true → ensureMigrationsTableExists db = db)
      ∧ (db.tableExists = false →
          ensureMigrationsTableExists db = (⟨true, [], db.schema⟩ : DB σ)) := by
  have hg : ∀ s0 : σ, GoodLedger ([] : List (NamedMigration σ)) ⟨true, [], s0⟩ :=
    fun s0 => ⟨rfl, by simp, rfl⟩
  have key : ∀ s0 : σ, migrateLoop exec ([] : List (NamedMigration σ)) ⟨true, [], s0⟩
      = (none, (⟨true, [], s0⟩ : DB σ)) :=
    fun s0 => migrateLoop_done (migrateOne_done exec (hg s0) rfl) rfl
  obtain ⟨te, l, sc⟩ := db
  cases te with
  | false =>
    have hens : ensureMigrationsTableExists (⟨false, l, sc⟩ : DB σ)
        = (⟨true, [], sc⟩ : DB σ) := by
      unfold ensureMigrationsTableExists
      rw [if_neg (by simp)]
    refine ⟨?_, ?_, fun _ => hens⟩
    · unfold Migrate
      rw [hens]
      exact key sc
    · intro hx
      exact absurd hx (by simp)
  | true =>
    have hl : l = [] := by
      rcases h with h | h
      · exact absurd h (by simp)
      · exact h
    subst hl
    have hens : ensureMigrationsTableExists (⟨true, [], sc⟩ : DB σ)
        = (⟨true, [], sc⟩ : DB σ) := ensure_id rfl
    refine ⟨?_, fun _ => hens, ?_⟩
    · unfold Migrate
      rw [hens]
      exact key sc
    · intro hx
      exact absurd hx (by simp)

/-- Claim C10: a `PostgresConfig` with any of the five fields empty makes
`SchemaTest` return the "All PostgresConfig fields must be specified"
error immediately — before attempting any connection (the conclusion
holds even for a world whose connection would fail), before any dump and
before any migration — leaving the world unchanged. -/
theorem claim10_config_field_guard (σ : Type)
    (exec : String → σ → Except String σ) (render : σ → String → String)
    (cfg : PostgresConfig) (list : List (NamedMigration σ)) (w : World σ)
    (h : cfg.Host = "" ∨ cfg.Port = "" ∨ cfg.Database = "" ∨ cfg.User = ""
      ∨ cfg.Password = "") :
    SchemaTest exec render cfg list w = (some .ConfigIncomplete, w, 0)
      ∧ STErr.message .ConfigIncomplete
          = "All PostgresConfig fields must be specified" := by
  refine ⟨?_, rfl⟩
  unfold SchemaTest
  rw [if_pos h]

/-- Configs and worlds for the `SchemaTest` witnesses. -/
def cfgFull : PostgresConfig := ⟨"localhost", "5432", "postgres", "postgres", "postgres"⟩

def cfgNoPort : PostgresConfig := ⟨"localhost", "", "postgres", "postgres", "postgres"⟩

def renderUnit : Unit → String → String := fun _ k => k

def wStray : World Unit := ⟨⟨false, [], ()⟩, true, true⟩

def wDead : World Unit := ⟨⟨false, [], ()⟩, false, false⟩

theorem claim8_witness :
    SchemaTest execUnit renderUnit cfgFull ([] : List (NamedMigration Unit)) wStray
      = (some .NonEmptyDatabase, wStray, 0) :=
  (claim8_nonempty_database_guard Unit execUnit renderUnit cfgFull [] wStray
    (by decide) (by decide) (by decide) (by decide) (by decide) rfl rfl).1

theorem claim9_witness :
    Migrate execUnit ([] : List (NamedMigration Unit))
        (⟨false, [⟨5, "junk"⟩], ()⟩ : DB Unit) = (none, (⟨true, [], ()⟩ : DB Unit))
      ∧ ensureMigrationsTableExists (⟨false, [⟨5, "junk"⟩], ()⟩ : DB Unit)
          = (⟨true, [], ()⟩ : DB Unit) :=
  ⟨(claim9_empty_migrate_bootstrap Unit execUnit ⟨false, [⟨5, "junk"⟩], ()⟩
      (Or.inl rfl)).1,
    (claim9_empty_migrate_bootstrap Unit execUnit ⟨false, [⟨5, "junk"⟩], ()⟩
      (Or.inl rfl)).2.2 rfl⟩

theorem claim10_witness :
    SchemaTest execUnit renderUnit cfgNoPort ([] : List (NamedMigration Unit)) wDead
      = (some .ConfigIncomplete, wDead, 0) :=
  (claim10_config_field_guard Unit execUnit renderUnit cfgNoPort [] wDead
    (Or.inr (Or.inl rfl))).1

end Migrations
